import Mathlib

/-!
Shallow embedding of the workout tracker's data model, mutation layer and
derivation layer (`src/types.ts`, `src/hooks/useWorkoutData.ts`,
`src/utils/storage.ts`, `src/utils/stats.ts`), together with proofs of the
specification claims about them.

Modelling conventions:
* ISO-8601 timestamps are kept as `String`s exactly as the code keeps them;
  taking the date portion (`s.split('T')[0]` in the source) becomes `datePart`.
* JavaScript `Date` values, used only by the streak computation, are modelled
  as `Int` day numbers (days since 1970-01-01, with local time equal to UTC);
  `parseDate` implements the Gregorian days-from-civil conversion so that
  concrete date strings evaluate inside the kernel.
* Nondeterministic inputs of the code (`new Date()`, `generateId()`) are
  passed as explicit parameters.
* `Array.prototype.sort` mutates its receiver; source functions that sort an
  array the caller retains are therefore modelled with explicit state passing,
  returning the post-state of the object alongside the value.
-/

namespace Reps

/-- Model of `Set` from `src/types.ts`: one logged set. JavaScript numbers are
modelled as `Int` (no claim performs arithmetic on them). -/
structure Set where
  reps : Int
  weight : Int
deriving DecidableEq

/-- Model of `ExerciseSession` from `src/types.ts`: all sets logged for one
exercise on one calendar day. -/
structure ExerciseSession where
  id : String
  date : String
  sets : List Set
deriving DecidableEq

/-- Model of `Exercise` from `src/types.ts`. -/
structure Exercise where
  id : String
  name : String
  category : String
  sessions : List ExerciseSession
deriving DecidableEq

/-- Model of `WorkoutSession` from `src/types.ts`. Optional fields become
`Option`. -/
structure WorkoutSession where
  id : String
  startTime : String
  endTime : Option String
  exerciseIds : List String
  isDwarfWorkout : Option Bool
deriving DecidableEq

/-- Model of the root container `WorkoutData` from `src/types.ts`. -/
structure WorkoutData where
  exercises : List Exercise
  workoutSessions : List WorkoutSession
deriving DecidableEq

/-- Date portion of an ISO string: the prefix before the first 'T'.  This is
`s.split('T')[0]` in the source (when 'T' does not occur, `split` returns the
whole string in slot 0, as does `takeWhile`). -/
def datePart (s : String) : String :=
  String.mk (s.data.takeWhile (fun c => c != 'T'))

/-- JavaScript truthiness of an optional string field: `undefined` and the
empty string are falsy, every other string is truthy.  Used where the source
tests `if (session.endTime)`. -/
def strTruthy : Option String → Bool
  | none => false
  | some s => s != ""

/-- Model of `deleteWorkoutSession` (`src/hooks/useWorkoutData.ts`, lines
120-154).  Looks up the session by id; when absent the snapshot is returned
unchanged.  Otherwise the session is filtered out of `workoutSessions` and,
for every exercise whose id occurs in the session's `exerciseIds`, the
exercise sessions dated on the workout's start date are removed. -/
def deleteWorkoutSession (data : WorkoutData) (sessionId : String) : WorkoutData :=
  match data.workoutSessions.find? (fun s => s.id == sessionId) with
  | none => data
  | some sessionToDelete =>
    let sessionDate := datePart sessionToDelete.startTime
    let exerciseIdsInSession := sessionToDelete.exerciseIds
    let updatedExercises := data.exercises.map (fun exercise =>
      if !(exerciseIdsInSession.contains exercise.id) then exercise
      else { exercise with
              sessions := exercise.sessions.filter
                (fun es => datePart es.date != sessionDate) })
    { data with
        exercises := updatedExercises,
        workoutSessions := data.workoutSessions.filter (fun s => s.id != sessionId) }

/-- On a list whose mapped ids are duplicate-free, `find?` by the id of a
member returns exactly that member. -/
theorem find?_by_id_of_nodup (l : List WorkoutSession) (S : WorkoutSession)
    (hmem : S ∈ l) (hnd : (l.map (fun s => s.id)).Nodup) :
    l.find? (fun s => s.id == S.id) = some S := by
  induction l with
  | nil => cases hmem
  | cons a t ih =>
    simp only [List.map_cons, List.nodup_cons] at hnd
    obtain ⟨hna, hndt⟩ := hnd
    rcases List.mem_cons.mp hmem with rfl | hmt
    · simp [List.find?]
    · have hne : a.id ≠ S.id := by
        intro h
        exact hna (h ▸ List.mem_map_of_mem (fun s => s.id) hmt)
      have hb : (a.id == S.id) = false := by simp [hne]
      simp only [List.find?, hb]
      exact ih hmt hndt

/-- Getting an element of a mapped list at a transported index. -/
theorem get_map_fin {α β : Type} (f : α → β) (l : List α) (i : Fin l.length)
    (h2 : i.1 < (l.map f).length) :
    (l.map f).get ⟨i.1, h2⟩ = f (l.get i) := by
  simp

/-- The property claim C1 asserts of `deleteWorkoutSession data S.id`:
the session `S` is gone and no other session is touched; every exercise that
was not a member of `S` is unchanged; every member exercise keeps its scalar
fields and loses exactly the exercise sessions dated on `S`'s start date. -/
def C1Post (data : WorkoutData) (S : WorkoutSession) : Prop :=
  S ∉ (deleteWorkoutSession data S.id).workoutSessions ∧
  (∀ T ∈ data.workoutSessions, T.id ≠ S.id →
      T ∈ (deleteWorkoutSession data S.id).workoutSessions) ∧
  (∀ T ∈ (deleteWorkoutSession data S.id).workoutSessions, T ∈ data.workoutSessions) ∧
  (deleteWorkoutSession data S.id).exercises.length = data.exercises.length ∧
  (∀ i : Fin data.exercises.length,
    ∀ h2 : i.1 < (deleteWorkoutSession data S.id).exercises.length,
    ((data.exercises.get i).id ∉ S.exerciseIds →
        (deleteWorkoutSession data S.id).exercises.get ⟨i.1, h2⟩ = data.exercises.get i) ∧
    ((data.exercises.get i).id ∈ S.exerciseIds →
        ((deleteWorkoutSession data S.id).exercises.get ⟨i.1, h2⟩).id
            = (data.exercises.get i).id ∧
        ((deleteWorkoutSession data S.id).exercises.get ⟨i.1, h2⟩).name
            = (data.exercises.get i).name ∧
        ((deleteWorkoutSession data S.id).exercises.get ⟨i.1, h2⟩).category
            = (data.exercises.get i).category ∧
        (∀ es ∈ (data.exercises.get i).sessions,
          (datePart es.date = datePart S.startTime →
            es ∉ ((deleteWorkoutSession data S.id).exercises.get ⟨i.1, h2⟩).sessions) ∧
          (datePart es.date ≠ datePart S.startTime →
            es ∈ ((deleteWorkoutSession data S.id).exercises.get ⟨i.1, h2⟩).sessions)) ∧
        (∀ es ∈ ((deleteWorkoutSession data S.id).exercises.get ⟨i.1, h2⟩).sessions,
          es ∈ (data.exercises.get i).sessions)))

/-- C1: for every snapshot and every workout session `S` present in it (ids
being unique per the data model), `deleteWorkoutSession S.id` removes `S` from
`workoutSessions` and, for each exercise whose id occurs in `S.exerciseIds`,
removes exactly the exercise sessions whose date portion equals the date
portion of `S.startTime`; every exercise whose id does not occur in
`S.exerciseIds` is unchanged. -/
theorem C1_deleteWorkoutSession_cascade (data : WorkoutData) (S : WorkoutSession)
    (hmem : S ∈ data.workoutSessions)
    (hnd : (data.workoutSessions.map (fun s => s.id)).Nodup) :
    C1Post data S := by
  have hfind := find?_by_id_of_nodup data.workoutSessions S hmem hnd
  have hdel : deleteWorkoutSession data S.id =
      { exercises := data.exercises.map (fun exercise =>
          if !(S.exerciseIds.contains exercise.id) then exercise
          else { exercise with
                  sessions := exercise.sessions.filter
                    (fun es => datePart es.date != datePart S.startTime) }),
        workoutSessions := data.workoutSessions.filter (fun s => s.id != S.id) } := by
    unfold deleteWorkoutSession
    rw [hfind]
  unfold C1Post
  rw [hdel]
  refine ⟨?_, ?_, ?_, ?_, ?_⟩
  · simp [List.mem_filter]
  · intro T hT hTne
    simp only [List.mem_filter, bne_iff_ne, ne_eq]
    exact ⟨hT, by simpa using hTne⟩
  · intro T hT
    exact (List.mem_filter.mp hT).1
  · simp
  · intro i h2
    rw [get_map_fin]
    generalize data.exercises.get i = e
    by_cases hin : e.id ∈ S.exerciseIds
    · have hc : (!S.exerciseIds.contains e.id) = false := by simp [hin]
      rw [hc, if_neg (by simp : ¬ (false = true))]
      constructor
      · intro hnot
        exact absurd hin hnot
      · intro _
        refine ⟨rfl, rfl, rfl, ?_, ?_⟩
        · intro es hes
          constructor
          · intro hdate
            simp [List.mem_filter, hdate]
          · intro hdate
            simp only [List.mem_filter, bne_iff_ne, ne_eq]
            exact ⟨hes, by simpa using hdate⟩
        · intro es hes
          exact (List.mem_filter.mp hes).1
    · have hc : (!S.exerciseIds.contains e.id) = true := by simp [hin]
      rw [hc, if_pos (rfl : true = true)]
      refine ⟨fun _ => rfl, fun habs => absurd habs hin⟩

/-- Concrete snapshot for the C1 witness: one workout session containing
exercise `a` on 2025-03-10, a second unrelated exercise `b` with a session on
the same date, and an unrelated workout session on another date. -/
def c1Data : WorkoutData :=
  { exercises :=
      [ { id := "a", name := "Bench", category := "Push",
          sessions := [ { id := "es1", date := "2025-03-10T09:00:00.000Z",
                          sets := [⟨5, 100⟩] },
                        { id := "es2", date := "2025-03-03T09:00:00.000Z",
                          sets := [⟨8, 80⟩] } ] },
        { id := "b", name := "Row", category := "Pull",
          sessions := [ { id := "es3", date := "2025-03-10T10:00:00.000Z",
                          sets := [⟨10, 60⟩] } ] } ],
    workoutSessions :=
      [ { id := "w1", startTime := "2025-03-10T09:00:00.000Z",
          endTime := some "2025-03-10T10:00:00.000Z",
          exerciseIds := ["a"], isDwarfWorkout := none },
        { id := "w2", startTime := "2025-03-03T09:00:00.000Z",
          endTime := some "2025-03-03T10:00:00.000Z",
          exerciseIds := ["a", "b"], isDwarfWorkout := none } ] }

/-- The workout session deleted in the C1 witness. -/
def c1Session : WorkoutSession :=
  { id := "w1", startTime := "2025-03-10T09:00:00.000Z",
    endTime := some "2025-03-10T10:00:00.000Z",
    exerciseIds := ["a"], isDwarfWorkout := none }

/-- Witness for C1 at a concrete snapshot: the hypotheses hold and the
conclusion follows by the theorem. -/
theorem C1_deleteWorkoutSession_cascade_witness :
    (c1Session ∈ c1Data.workoutSessions ∧
      (c1Data.workoutSessions.map (fun s => s.id)).Nodup) ∧
    C1Post c1Data c1Session :=
  ⟨⟨by decide, by decide⟩,
    C1_deleteWorkoutSession_cascade c1Data c1Session (by decide) (by decide)⟩

/-- Removal of the element at one index, written the way the source writes
it: `sets.filter((_, i) => i !== setIndex)`, i.e. index-filtering the
enumerated list. -/
def removeAtIndex (l : List Set) (setIndex : Nat) : List Set :=
  (l.enum.filter (fun p => p.1 != setIndex)).map Prod.snd

/-- Index-filtering an enumerated list drops exactly the element at the
targeted index. -/
theorem enumFrom_filter_ne_map_snd {α : Type} (l : List α) (n k : Nat) :
    ((l.enumFrom n).filter (fun p => p.1 != k)).map Prod.snd =
      if k < n then l else l.eraseIdx (k - n) := by
  induction l generalizing n with
  | nil => simp
  | cons a t ih =>
    simp only [List.enumFrom, List.filter_cons]
    by_cases h : n = k
    · subst h
      have hb : ((n, a).1 != n) = false := by simp
      rw [hb]
      simp only [Bool.false_eq_true, if_false, ih]
      rw [if_neg (lt_irrefl n), Nat.sub_self, if_pos (Nat.lt_succ_self n)]
      rfl
    · have hb : ((n, a).1 != k) = true := by simp [h]
      rw [hb]
      simp only [if_true, List.map_cons, ih]
      by_cases hlt : k < n
      · rw [if_pos hlt, if_pos (Nat.lt_succ_of_lt hlt)]
      · rw [if_neg hlt]
        have hlt2 : ¬ k < n + 1 := by omega
        rw [if_neg hlt2]
        have hk : k - n = (k - (n + 1)) + 1 := by omega
        rw [hk]
        rfl

/-- The index filter of the source is `List.eraseIdx`. -/
theorem removeAtIndex_eq_eraseIdx (l : List Set) (k : Nat) :
    removeAtIndex l k = l.eraseIdx k := by
  unfold removeAtIndex
  rw [show l.enum = l.enumFrom 0 from rfl, enumFrom_filter_ne_map_snd]
  simp

/-- Inner transformation of `deleteSet` on one exercise's session list: the
session matching `sessionId` loses the set at `setIndex`, then sessions left
with zero sets are pruned (`.filter(session => session.sets.length > 0)`). -/
def deleteSetSessions (sessionId : String) (setIndex : Nat)
    (sessions : List ExerciseSession) : List ExerciseSession :=
  (sessions.map (fun session =>
      if session.id != sessionId then session
      else { session with sets := removeAtIndex session.sets setIndex })).filter
    (fun session => decide (0 < session.sets.length))

/-- Model of `deleteSet` (`src/hooks/useWorkoutData.ts`, lines 79-94). -/
def deleteSet (data : WorkoutData) (exerciseId : String) (sessionId : String)
    (setIndex : Nat) : WorkoutData :=
  { data with
      exercises := data.exercises.map (fun exercise =>
        if exercise.id != exerciseId then exercise
        else { exercise with
                sessions := deleteSetSessions sessionId setIndex exercise.sessions }) }

/-- Sessions whose ids all differ from the targeted id pass through the map
of `deleteSetSessions` unchanged. -/
theorem map_deleteSet_untouched (sid : String) (k : Nat)
    (l : List ExerciseSession) (h : ∀ s ∈ l, s.id ≠ sid) :
    l.map (fun session =>
      if session.id != sid then session
      else { session with sets := removeAtIndex session.sets k }) = l := by
  induction l with
  | nil => rfl
  | cons a t ih =>
    have ha : (a.id != sid) = true := by simp [h a (List.mem_cons_self a t)]
    simp only [List.map_cons, ha, if_true]
    rw [ih (fun s hs => h s (List.mem_cons_of_mem a hs))]

/-- Nonempty sessions all survive the pruning filter. -/
theorem filter_nonempty_sessions (l : List ExerciseSession)
    (h : ∀ s ∈ l, s.sets ≠ []) :
    l.filter (fun session => decide (0 < session.sets.length)) = l := by
  rw [List.filter_eq_self]
  intro s hs
  simpa using List.length_pos.mpr (h s hs)

/-- Behaviour of `deleteSetSessions` at a member session of a well-formed
session list: deleting the only set removes the session, deleting one of at
least two sets keeps the session with that set erased. -/
theorem deleteSetSessions_spec (sessions : List ExerciseSession)
    (session : ExerciseSession) (k : Nat)
    (hses : session ∈ sessions)
    (hnd : (sessions.map (fun s => s.id)).Nodup)
    (hne : ∀ s ∈ sessions, s.sets ≠ []) :
    (session.sets.length = 1 ∧ k = 0 →
      (deleteSetSessions session.id k sessions).length = sessions.length - 1 ∧
      ∀ s ∈ deleteSetSessions session.id k sessions, s.id ≠ session.id) ∧
    (2 ≤ session.sets.length ∧ k < session.sets.length →
      (deleteSetSessions session.id k sessions).length = sessions.length ∧
      ∃ s' ∈ deleteSetSessions session.id k sessions,
        s'.id = session.id ∧ s'.sets = session.sets.eraseIdx k) := by
  induction sessions with
  | nil => cases hses
  | cons a t ih =>
    simp only [List.map_cons, List.nodup_cons] at hnd
    obtain ⟨hna, hndt⟩ := hnd
    have hneT : ∀ s ∈ t, s.sets ≠ [] := fun s hs => hne s (List.mem_cons_of_mem a hs)
    rcases List.mem_cons.mp hses with rfl | hmt
    · have htne : ∀ s ∈ t, s.id ≠ session.id := by
        intro s hs heq
        exact hna (heq ▸ List.mem_map_of_mem (fun s => s.id) hs)
      have hself : (session.id != session.id) = false := by simp
      have hmap : deleteSetSessions session.id k (session :: t) =
          ({ session with sets := removeAtIndex session.sets k } :: t).filter
            (fun s => decide (0 < s.sets.length)) := by
        unfold deleteSetSessions
        rw [List.map_cons, hself]
        simp only [Bool.false_eq_true, if_false]
        rw [map_deleteSet_untouched session.id k t htne]
      constructor
      · rintro ⟨hlen1, rfl⟩
        obtain ⟨x, hx⟩ := List.length_eq_one.mp hlen1
        have hdrop : removeAtIndex session.sets 0 = [] := by
          rw [removeAtIndex_eq_eraseIdx, hx]
          rfl
        rw [hmap, List.filter_cons]
        have hc : (decide (0 < ({ session with sets := removeAtIndex session.sets 0 } :
            ExerciseSession).sets.length)) = false := by
          simp [hdrop]
        rw [hc]
        simp only [Bool.false_eq_true, if_false]
        rw [filter_nonempty_sessions t hneT]
        exact ⟨by simp, htne⟩
      · rintro ⟨hlen2, hk⟩
        have hkeep : 0 < (removeAtIndex session.sets k).length := by
          rw [removeAtIndex_eq_eraseIdx, List.length_eraseIdx, if_pos hk]
          omega
        rw [hmap, List.filter_cons]
        have hc : (decide (0 < ({ session with sets := removeAtIndex session.sets k } :
            ExerciseSession).sets.length)) = true := by
          simpa using hkeep
        rw [hc]
        simp only [if_true]
        rw [filter_nonempty_sessions t hneT]
        refine ⟨by simp, ⟨{ session with sets := removeAtIndex session.sets k },
          List.mem_cons_self _ _, rfl, ?_⟩⟩
        exact removeAtIndex_eq_eraseIdx session.sets k
    · have hane : a.id ≠ session.id := by
        intro heq
        exact hna (heq ▸ List.mem_map_of_mem (fun s => s.id) hmt)
      have hacond : (a.id != session.id) = true := by simp [hane]
      have hakeep : (decide (0 < a.sets.length)) = true := by
        simpa using List.length_pos.mpr (hne a (List.mem_cons_self a t))
      have hstep : deleteSetSessions session.id k (a :: t) =
          a :: deleteSetSessions session.id k t := by
        unfold deleteSetSessions
        rw [List.map_cons, hacond]
        simp only [if_true]
        rw [List.filter_cons, hakeep]
        simp only [if_true]
      have htpos : 0 < t.length := List.length_pos.mpr (List.ne_nil_of_mem hmt)
      obtain ⟨ihA, ihB⟩ := ih hmt hndt hneT
      rw [hstep]
      constructor
      · intro hA
        obtain ⟨hlen, hmem⟩ := ihA hA
        constructor
        · simp only [List.length_cons, hlen]
          omega
        · intro s hs
          rcases List.mem_cons.mp hs with rfl | hs2
          · exact hane
          · exact hmem s hs2
      · intro hB
        obtain ⟨hlen, s', hs', hid, hsets⟩ := ihB hB
        exact ⟨by simp [hlen], ⟨s', List.mem_cons_of_mem a hs', hid, hsets⟩⟩

/-- The property claim C2 asserts of `deleteSet data exercise.id session.id k`
at each position holding `exercise`: deleting the only set (index 0 of a
one-set session) removes the session and only it; deleting one of `n ≥ 2`
sets at a resolving index keeps the session, now holding the original sets in
order with the indexed one erased. -/
def C2Post (data : WorkoutData) (exercise : Exercise) (session : ExerciseSession)
    (k : Nat) : Prop :=
  (deleteSet data exercise.id session.id k).exercises.length = data.exercises.length ∧
  ∀ i : Fin data.exercises.length,
    ∀ h2 : i.1 < (deleteSet data exercise.id session.id k).exercises.length,
    data.exercises.get i = exercise →
    (session.sets.length = 1 ∧ k = 0 →
      ((deleteSet data exercise.id session.id k).exercises.get ⟨i.1, h2⟩).sessions.length
          = exercise.sessions.length - 1 ∧
      ∀ s ∈ ((deleteSet data exercise.id session.id k).exercises.get ⟨i.1, h2⟩).sessions,
        s.id ≠ session.id) ∧
    (2 ≤ session.sets.length ∧ k < session.sets.length →
      ((deleteSet data exercise.id session.id k).exercises.get ⟨i.1, h2⟩).sessions.length
          = exercise.sessions.length ∧
      ∃ s' ∈ ((deleteSet data exercise.id session.id k).exercises.get ⟨i.1, h2⟩).sessions,
        s'.id = session.id ∧ s'.sets = session.sets.eraseIdx k)

/-- C2: for every snapshot, exercise and session of that exercise (session
ids unique within the exercise and no empty session, per the data model), if
the session has exactly one set then `deleteSet` at index 0 removes the
session and the exercise's session count decreases by exactly one; if it has
`n ≥ 2` sets and the index resolves, the session stays with `n - 1` sets in
the original order. -/
theorem C2_deleteSet_last_set (data : WorkoutData) (exercise : Exercise)
    (session : ExerciseSession) (k : Nat)
    (hses : session ∈ exercise.sessions)
    (hnd : (exercise.sessions.map (fun s => s.id)).Nodup)
    (hne : ∀ s ∈ exercise.sessions, s.sets ≠ []) :
    C2Post data exercise session k := by
  have hspec := deleteSetSessions_spec exercise.sessions session k hses hnd hne
  unfold C2Post deleteSet
  constructor
  · simp
  · intro i h2 hEq
    rw [get_map_fin, hEq]
    have hcond : (exercise.id != exercise.id) = false := by simp
    rw [hcond]
    simp only [Bool.false_eq_true, if_false]
    exact hspec

/-- Concrete snapshot for the C2 witness: exercise `a` has a one-set session
and a two-set session. -/
def c2Data : WorkoutData :=
  { exercises :=
      [ { id := "a", name := "Bench", category := "Push",
          sessions :=
            [ { id := "s1", date := "2025-03-10T09:00:00.000Z", sets := [⟨5, 100⟩] },
              { id := "s2", date := "2025-03-03T09:00:00.000Z",
                sets := [⟨8, 80⟩, ⟨6, 90⟩] } ] } ],
    workoutSessions := [] }

/-- The one-set session deleted in the C2 witness. -/
def c2Session : ExerciseSession :=
  { id := "s1", date := "2025-03-10T09:00:00.000Z", sets := [⟨5, 100⟩] }

/-- The exercise targeted in the C2 witness. -/
def c2Exercise : Exercise :=
  { id := "a", name := "Bench", category := "Push",
    sessions :=
      [ c2Session,
        { id := "s2", date := "2025-03-03T09:00:00.000Z",
          sets := [⟨8, 80⟩, ⟨6, 90⟩] } ] }

/-- Witness for C2 at a concrete snapshot. -/
theorem C2_deleteSet_last_set_witness :
    (c2Session ∈ c2Exercise.sessions ∧
      (c2Exercise.sessions.map (fun s => s.id)).Nodup ∧
      (∀ s ∈ c2Exercise.sessions, s.sets ≠ [])) ∧
    C2Post c2Data c2Exercise c2Session 0 :=
  ⟨⟨by decide, by decide, by decide⟩,
    C2_deleteSet_last_set c2Data c2Exercise c2Session 0 (by decide) (by decide)
      (by decide)⟩

/-- Inner transformation of `addSetToExercise` on one exercise's session
list, mirroring the source's findIndex-or-append logic: the first session
whose date portion equals `dp` receives the set at the end of its `sets` (the
source copies the array and replaces that index); when no session matches, a
new session (fresh id, full date string, singleton set list) is appended at
the end. -/
def addSetToSessions (dp : String) (dateStr : String) (freshId : String)
    (newSet : Set) : List ExerciseSession → List ExerciseSession
  | [] => [{ id := freshId, date := dateStr, sets := [newSet] }]
  | s :: rest =>
    if datePart s.date == dp then { s with sets := s.sets ++ [newSet] } :: rest
    else s :: addSetToSessions dp dateStr freshId newSet rest

/-- Model of `addSetToExercise` (`src/hooks/useWorkoutData.ts`, lines 39-77).
The caller's `Date` becomes the ISO string `targetDate`; `freshId` stands for
`generateId()`. -/
def addSetToExercise (data : WorkoutData) (exerciseId : String) (newSet : Set)
    (targetDate : String) (freshId : String) : WorkoutData :=
  { data with
      exercises := data.exercises.map (fun exercise =>
        if exercise.id != exerciseId then exercise
        else { exercise with
                sessions := addSetToSessions (datePart targetDate) targetDate
                  freshId newSet exercise.sessions }) }

/-- Two `addSetToSessions` calls for the same day on a session list holding
at most one session of that day produce exactly one session of that day,
carrying the original day's sets (empty when the day was absent) followed by
the two added sets in call order. -/
theorem addSetToSessions_twice (l : List ExerciseSession) (dp d1 d2 f1 f2 : String)
    (s1 s2 : Set) (hd1 : datePart d1 = dp)
    (hinv : (l.filter (fun s => datePart s.date == dp)).length ≤ 1) :
    ((addSetToSessions dp d2 f2 s2 (addSetToSessions dp d1 f1 s1 l)).filter
        (fun s => datePart s.date == dp)).length = 1 ∧
    (∀ s' ∈ (addSetToSessions dp d2 f2 s2 (addSetToSessions dp d1 f1 s1 l)).filter
        (fun s => datePart s.date == dp),
      s'.sets = (match l.find? (fun s => datePart s.date == dp) with
                 | some s0 => s0.sets
                 | none => []) ++ [s1, s2]) ∧
    (addSetToSessions dp d2 f2 s2 (addSetToSessions dp d1 f1 s1 l)).length =
      (if l.any (fun s => datePart s.date == dp) then l.length
       else l.length + 1) := by
  induction l with
  | nil =>
    refine ⟨?_, ?_, ?_⟩ <;> simp [addSetToSessions, hd1, List.find?]
  | cons a t ih =>
    by_cases hpa : datePart a.date = dp
    · have hb : (datePart a.date == dp) = true := by simp [hpa]
      have e1 : addSetToSessions dp d1 f1 s1 (a :: t)
          = { a with sets := a.sets ++ [s1] } :: t := by
        simp only [addSetToSessions, hb, if_true]
      have e2 : addSetToSessions dp d2 f2 s2 ({ a with sets := a.sets ++ [s1] } :: t)
          = { a with sets := (a.sets ++ [s1]) ++ [s2] } :: t := by
        simp only [addSetToSessions,
          show (datePart ({ a with sets := a.sets ++ [s1] } :
            ExerciseSession).date == dp) = true from hb, if_true]
      have hft : t.filter (fun s => datePart s.date == dp) = [] := by
        rw [List.filter_cons, hb] at hinv
        simp only [if_true, List.length_cons] at hinv
        exact List.length_eq_zero.mp (by omega)
      rw [e1, e2]
      refine ⟨?_, ?_, ?_⟩
      · rw [List.filter_cons,
          show (datePart ({ a with sets := (a.sets ++ [s1]) ++ [s2] } :
            ExerciseSession).date == dp) = true from hb]
        simp [hft]
      · intro s' hs'
        rw [List.filter_cons,
          show (datePart ({ a with sets := (a.sets ++ [s1]) ++ [s2] } :
            ExerciseSession).date == dp) = true from hb] at hs'
        simp only [if_true, hft, List.mem_singleton] at hs'
        subst hs'
        simp [List.find?, hb]
      · simp [List.any_cons, hb]
    · have hb : (datePart a.date == dp) = false := by simp [hpa]
      have e1 : addSetToSessions dp d1 f1 s1 (a :: t)
          = a :: addSetToSessions dp d1 f1 s1 t := by
        simp only [addSetToSessions, hb, Bool.false_eq_true, if_false]
      have e2 : addSetToSessions dp d2 f2 s2 (a :: addSetToSessions dp d1 f1 s1 t)
          = a :: addSetToSessions dp d2 f2 s2 (addSetToSessions dp d1 f1 s1 t) := by
        simp only [addSetToSessions, hb, Bool.false_eq_true, if_false]
      have hinvT : (t.filter (fun s => datePart s.date == dp)).length ≤ 1 := by
        rw [List.filter_cons, hb] at hinv
        simpa using hinv
      obtain ⟨ih1, ih2, ih3⟩ := ih hinvT
      rw [e1, e2]
      refine ⟨?_, ?_, ?_⟩
      · rw [List.filter_cons, hb]
        simpa using ih1
      · intro s' hs'
        rw [List.filter_cons, hb] at hs'
        simp only [Bool.false_eq_true, if_false] at hs'
        have hf : (a :: t).find? (fun s => datePart s.date == dp)
            = t.find? (fun s => datePart s.date == dp) := by
          simp only [List.find?, hb]
        rw [hf]
        exact ih2 s' hs'
      · rw [List.length_cons, ih3, List.any_cons, hb]
        simp only [Bool.false_or]
        by_cases ha : t.any (fun s => datePart s.date == dp) = true
        · simp [ha]
        · simp only [Bool.not_eq_true] at ha
          simp [ha]

/-- The property claim C3 asserts of the snapshot `result` obtained by adding
two sets for day `dp` to the exercise: at each position holding an exercise
with the targeted id whose sessions contain at most one session of day `dp`
(the data-model invariant), the result has exactly one session of day `dp`,
its sets are the day's original sets followed by the two new sets in call
order, and the session count grew only when the day was absent. -/
def C3Post (dataEx : List Exercise) (resultEx : List Exercise)
    (exerciseId : String) (dp : String) (s1 s2 : Set) : Prop :=
  resultEx.length = dataEx.length ∧
  ∀ i : Fin dataEx.length,
    ∀ h2 : i.1 < resultEx.length,
    (dataEx.get i).id = exerciseId →
    ((dataEx.get i).sessions.filter
        (fun s => datePart s.date == dp)).length ≤ 1 →
    ((resultEx.get ⟨i.1, h2⟩).sessions.filter
        (fun s => datePart s.date == dp)).length = 1 ∧
    (∀ s' ∈ (resultEx.get ⟨i.1, h2⟩).sessions.filter
        (fun s => datePart s.date == dp),
      s'.sets = (match (dataEx.get i).sessions.find?
                    (fun s => datePart s.date == dp) with
                 | some s0 => s0.sets
                 | none => []) ++ [s1, s2]) ∧
    (resultEx.get ⟨i.1, h2⟩).sessions.length =
      (if (dataEx.get i).sessions.any (fun s => datePart s.date == dp)
       then (dataEx.get i).sessions.length
       else (dataEx.get i).sessions.length + 1)

/-- C3: calling `addSetToExercise` twice for the same exercise with two dates
sharing the date portion `dp` merges both sets, in call order, into the single
session of that day (created by the first call when absent) rather than
creating two sessions. -/
theorem C3_addSetToExercise_same_day (data : WorkoutData)
    (exerciseId dp d1 d2 f1 f2 : String) (s1 s2 : Set)
    (hd1 : datePart d1 = dp) (hd2 : datePart d2 = dp) :
    C3Post data.exercises
      (addSetToExercise (addSetToExercise data exerciseId s1 d1 f1)
        exerciseId s2 d2 f2).exercises exerciseId dp s1 s2 := by
  have hcomp : (addSetToExercise (addSetToExercise data exerciseId s1 d1 f1)
      exerciseId s2 d2 f2).exercises
      = data.exercises.map (fun e =>
          if e.id != exerciseId then e
          else { e with
                  sessions := addSetToSessions dp d2 f2 s2
                    (addSetToSessions dp d1 f1 s1 e.sessions) }) := by
    rw [show (addSetToExercise (addSetToExercise data exerciseId s1 d1 f1)
        exerciseId s2 d2 f2).exercises
        = (data.exercises.map (fun exercise =>
            if exercise.id != exerciseId then exercise
            else { exercise with
                    sessions := addSetToSessions (datePart d1) d1 f1 s1
                      exercise.sessions })).map (fun exercise =>
            if exercise.id != exerciseId then exercise
            else { exercise with
                    sessions := addSetToSessions (datePart d2) d2 f2 s2
                      exercise.sessions }) from rfl]
    rw [List.map_map]
    apply List.map_congr_left
    intro e _
    by_cases h : e.id = exerciseId
    · have hc : (e.id != exerciseId) = false := by simp [h]
      simp only [Function.comp_apply, hc, Bool.false_eq_true, if_false, hd1, hd2]
    · have hc : (e.id != exerciseId) = true := by simp [h]
      simp only [Function.comp_apply, hc, if_true]
  rw [hcomp]
  unfold C3Post
  constructor
  · simp
  · intro i h2
    rw [get_map_fin]
    generalize data.exercises.get i = e
    intro hid hinv
    have hc : (e.id != exerciseId) = false := by simp [hid]
    simp only [hc, Bool.false_eq_true, if_false]
    exact addSetToSessions_twice e.sessions dp d1 d2 f1 f2 s1 s2 hd1 hinv

/-- Concrete snapshot for the C3 witness: one exercise with no sessions yet. -/
def c3Data : WorkoutData :=
  { exercises :=
      [ { id := "a", name := "Bench", category := "Push", sessions := [] } ],
    workoutSessions := [] }

/-- Witness for C3 at a concrete snapshot: two set additions on the same
calendar day with different literal timestamps. -/
theorem C3_addSetToExercise_same_day_witness :
    (datePart "2025-03-10T08:00:00.000Z" = "2025-03-10" ∧
      datePart "2025-03-10T21:30:00.000Z" = "2025-03-10") ∧
    C3Post c3Data.exercises
      (addSetToExercise (addSetToExercise c3Data "a" ⟨5, 100⟩
          "2025-03-10T08:00:00.000Z" "f1")
        "a" ⟨6, 105⟩ "2025-03-10T21:30:00.000Z" "f2").exercises "a" "2025-03-10"
      ⟨5, 100⟩ ⟨6, 105⟩ :=
  ⟨⟨by decide, by decide⟩,
    C3_addSetToExercise_same_day c3Data "a" "2025-03-10"
      "2025-03-10T08:00:00.000Z" "2025-03-10T21:30:00.000Z" "f1" "f2"
      ⟨5, 100⟩ ⟨6, 105⟩ (by decide) (by decide)⟩

/-- Model of `cleanOrphanedSessions` (`src/utils/storage.ts`, lines 58-86).
The valid workout dates are the start-date portions of the workout sessions
whose `endTime` is truthy (`if (session.endTime)` in the source); with zero
workout sessions the snapshot is returned unchanged; otherwise each exercise
keeps exactly the sessions whose date portion is a valid workout date. -/
def cleanOrphanedSessions (data : WorkoutData) : WorkoutData :=
  let validWorkoutDates := (data.workoutSessions.filter
      (fun s => strTruthy s.endTime)).map (fun s => datePart s.startTime)
  if data.workoutSessions.length = 0 then data
  else
    { data with
        exercises := data.exercises.map (fun exercise =>
          { exercise with
              sessions := exercise.sessions.filter
                (fun session =>
                  validWorkoutDates.contains (datePart session.date)) }) }

/-- Truthiness of an optional string unfolded. -/
theorem strTruthy_true_iff (o : Option String) :
    strTruthy o = true ↔ ∃ t, o = some t ∧ t ≠ "" := by
  cases o <;> simp [strTruthy]

/-- The property claim C9 asserts of `cleanOrphanedSessions`: a no-op on
snapshots without workout sessions; otherwise `workoutSessions` is untouched
and each exercise keeps exactly the sessions anchored to the start date of
some completed workout session. -/
def C9Post (data : WorkoutData) : Prop :=
  (data.workoutSessions = [] → cleanOrphanedSessions data = data) ∧
  (data.workoutSessions ≠ [] →
    (cleanOrphanedSessions data).workoutSessions = data.workoutSessions ∧
    (cleanOrphanedSessions data).exercises.length = data.exercises.length ∧
    ∀ i : Fin data.exercises.length,
      ∀ h2 : i.1 < (cleanOrphanedSessions data).exercises.length,
      ((cleanOrphanedSessions data).exercises.get ⟨i.1, h2⟩).id
          = (data.exercises.get i).id ∧
      ((cleanOrphanedSessions data).exercises.get ⟨i.1, h2⟩).name
          = (data.exercises.get i).name ∧
      ((cleanOrphanedSessions data).exercises.get ⟨i.1, h2⟩).category
          = (data.exercises.get i).category ∧
      (∀ s ∈ ((cleanOrphanedSessions data).exercises.get ⟨i.1, h2⟩).sessions,
        s ∈ (data.exercises.get i).sessions) ∧
      (∀ s ∈ (data.exercises.get i).sessions,
        (s ∈ ((cleanOrphanedSessions data).exercises.get ⟨i.1, h2⟩).sessions ↔
          ∃ ws ∈ data.workoutSessions, ws.endTime ≠ none ∧
            datePart ws.startTime = datePart s.date)))

/-- C9: with at least one workout session, `cleanOrphanedSessions` removes
exactly the exercise sessions whose date portion is not the start date of
some completed workout session, leaving `workoutSessions` untouched; with
zero workout sessions it returns the snapshot unchanged.  The hypothesis
says every present `endTime` is a nonempty (ISO) string, per the data
model. -/
theorem C9_cleanOrphanedSessions (data : WorkoutData)
    (hwf : ∀ ws ∈ data.workoutSessions, ws.endTime ≠ some "") :
    C9Post data := by
  unfold C9Post
  constructor
  · intro h0
    simp [cleanOrphanedSessions, h0]
  · intro hne0
    have hlen : ¬ data.workoutSessions.length = 0 := by
      simpa using hne0
    have hclean : cleanOrphanedSessions data =
        { data with
            exercises := data.exercises.map (fun exercise =>
              { exercise with
                  sessions := exercise.sessions.filter
                    (fun session =>
                      ((data.workoutSessions.filter
                          (fun s => strTruthy s.endTime)).map
                        (fun s => datePart s.startTime)).contains
                        (datePart session.date)) }) } := by
      simp only [cleanOrphanedSessions]
      rw [if_neg hlen]
    rw [hclean]
    refine ⟨rfl, by simp, ?_⟩
    intro i h2
    rw [get_map_fin]
    generalize data.exercises.get i = e
    refine ⟨rfl, rfl, rfl, ?_, ?_⟩
    · intro s hs
      exact (List.mem_filter.mp hs).1
    · intro s hs
      constructor
      · intro hmem
        have hp := (List.mem_filter.mp hmem).2
        have hp2 : datePart s.date ∈ (data.workoutSessions.filter
            (fun w => strTruthy w.endTime)).map (fun w => datePart w.startTime) := by
          simpa using hp
        obtain ⟨ws, hwsf, heq⟩ := List.mem_map.mp hp2
        obtain ⟨hws, htr⟩ := List.mem_filter.mp hwsf
        obtain ⟨t, het, _⟩ := (strTruthy_true_iff ws.endTime).mp htr
        exact ⟨ws, hws, by simp [het], heq⟩
      · rintro ⟨ws, hws, hend, hdate⟩
        apply List.mem_filter.mpr
        refine ⟨hs, ?_⟩
        obtain ⟨t, het⟩ := Option.ne_none_iff_exists'.mp hend
        have htr : strTruthy ws.endTime = true := by
          refine (strTruthy_true_iff ws.endTime).mpr ⟨t, het, ?_⟩
          intro h
          exact hwf ws hws (h ▸ het)
        have : datePart s.date ∈ (data.workoutSessions.filter
            (fun w => strTruthy w.endTime)).map (fun w => datePart w.startTime) := by
          exact List.mem_map.mpr ⟨ws, List.mem_filter.mpr ⟨hws, htr⟩, hdate⟩
        simpa using this

/-- Concrete snapshot for the C9 witness: one completed workout session on
2025-03-10, one exercise with an anchored session on that date and an
orphaned session on 2025-03-04. -/
def c9Data : WorkoutData :=
  { exercises :=
      [ { id := "a", name := "Bench", category := "Push",
          sessions :=
            [ { id := "s1", date := "2025-03-10T09:00:00.000Z", sets := [⟨5, 100⟩] },
              { id := "s2", date := "2025-03-04T09:00:00.000Z", sets := [⟨8, 80⟩] } ] } ],
    workoutSessions :=
      [ { id := "w1", startTime := "2025-03-10T09:00:00.000Z",
          endTime := some "2025-03-10T10:00:00.000Z",
          exerciseIds := ["a"], isDwarfWorkout := none } ] }

/-- Witness for C9 at a concrete snapshot. -/
theorem C9_cleanOrphanedSessions_witness :
    (∀ ws ∈ c9Data.workoutSessions, ws.endTime ≠ some "") ∧ C9Post c9Data :=
  ⟨by decide, C9_cleanOrphanedSessions c9Data (by decide)⟩

/-- Lexicographic comparison of character lists by code point: the order the
JavaScript default `Array.prototype.sort` applies to strings. -/
def charListLe : List Char → List Char → Bool
  | [], _ => true
  | _ :: _, [] => false
  | a :: as, b :: bs =>
    if a.toNat < b.toNat then true
    else if b.toNat < a.toNat then false
    else charListLe as bs

/-- String comparison as the JavaScript default sort compares strings. -/
def strLe (a b : String) : Bool :=
  charListLe a.data b.data

/-- Unfolding of `charListLe` on two cons cells. -/
theorem charListLe_cons_iff (a b : Char) (as bs : List Char) :
    charListLe (a :: as) (b :: bs) = true ↔
      (a.toNat < b.toNat ∨ (a.toNat = b.toNat ∧ charListLe as bs = true)) := by
  simp only [charListLe]
  split_ifs with h1 h2
  · simp [h1]
  · have hne : a.toNat ≠ b.toNat := by omega
    simp [h1, hne]
  · have heq : a.toNat = b.toNat := by omega
    simp [h1, heq]

/-- Reflexivity of the character-list order. -/
theorem charListLe_refl (l : List Char) : charListLe l l = true := by
  induction l with
  | nil => rfl
  | cons a t ih =>
    rw [charListLe_cons_iff]
    exact Or.inr ⟨rfl, ih⟩

/-- Totality of the character-list order. -/
theorem charListLe_total (l1 : List Char) :
    ∀ l2, charListLe l1 l2 = true ∨ charListLe l2 l1 = true := by
  induction l1 with
  | nil => intro l2; left; rfl
  | cons a as ih =>
    intro l2
    cases l2 with
    | nil => right; rfl
    | cons b bs =>
      rw [charListLe_cons_iff, charListLe_cons_iff]
      rcases Nat.lt_trichotomy a.toNat b.toNat with h | h | h
      · exact Or.inl (Or.inl h)
      · rcases ih bs with hh | hh
        · exact Or.inl (Or.inr ⟨h, hh⟩)
        · exact Or.inr (Or.inr ⟨h.symm, hh⟩)
      · exact Or.inr (Or.inl h)

/-- Transitivity of the character-list order. -/
theorem charListLe_trans (l1 : List Char) :
    ∀ l2 l3, charListLe l1 l2 = true → charListLe l2 l3 = true →
      charListLe l1 l3 = true := by
  induction l1 with
  | nil => intro l2 l3 _ _; rfl
  | cons a as ih =>
    intro l2 l3 h12 h23
    cases l2 with
    | nil => simp [charListLe] at h12
    | cons b bs =>
      cases l3 with
      | nil => simp [charListLe] at h23
      | cons c cs =>
        rw [charListLe_cons_iff] at h12 h23 ⊢
        rcases h12 with h | ⟨he, hr⟩ <;> rcases h23 with h' | ⟨he', hr'⟩
        · exact Or.inl (by omega)
        · exact Or.inl (by omega)
        · exact Or.inl (by omega)
        · exact Or.inr ⟨by omega, ih bs cs hr hr'⟩

/-- Reflexivity, totality and transitivity transported to `strLe`. -/
theorem strLe_refl (a : String) : strLe a a = true :=
  charListLe_refl a.data

/-- Totality of `strLe`. -/
theorem strLe_total (a b : String) : strLe a b = true ∨ strLe b a = true :=
  charListLe_total a.data b.data

/-- Transitivity of `strLe`. -/
theorem strLe_trans (a b c : String) (h1 : strLe a b = true)
    (h2 : strLe b c = true) : strLe a c = true :=
  charListLe_trans a.data b.data c.data h1 h2

/-- Insertion into a sorted list, keeping earlier-inserted equal keys first
exactly as the (stable) JavaScript sort does. -/
def insertSorted (x : String) : List String → List String
  | [] => [x]
  | y :: ys => if strLe x y then x :: y :: ys else y :: insertSorted x ys

/-- Insertion sort of strings under `strLe`; models `Array.from(set).sort()`.
Since the sorted inputs here are duplicate-free, any comparison sort agrees
with this one. -/
def sortStrings : List String → List String
  | [] => []
  | x :: xs => insertSorted x (sortStrings xs)

/-- Membership in an insertion. -/
theorem mem_insertSorted (x y : String) (l : List String) :
    y ∈ insertSorted x l ↔ y = x ∨ y ∈ l := by
  induction l with
  | nil => simp [insertSorted]
  | cons a t ih =>
    simp only [insertSorted]
    split_ifs
    · simp [List.mem_cons]
    · simp only [List.mem_cons, ih]
      tauto

/-- Inserting permutes consing. -/
theorem insertSorted_perm (x : String) (l : List String) :
    (insertSorted x l).Perm (x :: l) := by
  induction l with
  | nil => simp [insertSorted]
  | cons a t ih =>
    simp only [insertSorted]
    split_ifs
    · exact List.Perm.refl _
    · exact (ih.cons a).trans (List.Perm.swap x a t)

/-- The sort permutes its input. -/
theorem sortStrings_perm (l : List String) : (sortStrings l).Perm l := by
  induction l with
  | nil => exact List.Perm.nil
  | cons a t ih =>
    exact (insertSorted_perm a (sortStrings t)).trans (ih.cons a)

/-- Insertion preserves sortedness. -/
theorem pairwise_insertSorted (x : String) (l : List String)
    (h : List.Pairwise (fun a b => strLe a b = true) l) :
    List.Pairwise (fun a b => strLe a b = true) (insertSorted x l) := by
  induction l with
  | nil => simp [insertSorted]
  | cons a t ih =>
    simp only [insertSorted]
    obtain ⟨ha, ht⟩ := List.pairwise_cons.mp h
    split_ifs with hle
    · refine List.pairwise_cons.mpr ⟨?_, h⟩
      intro b hb
      rcases List.mem_cons.mp hb with rfl | hbt
      · exact hle
      · exact strLe_trans x a b hle (ha b hbt)
    · refine List.pairwise_cons.mpr ⟨?_, ih ht⟩
      intro b hb
      rcases (mem_insertSorted x b t).mp hb with rfl | hbt
      · exact (strLe_total b a).resolve_left hle
      · exact ha b hbt

/-- The sort is sorted. -/
theorem pairwise_sortStrings (l : List String) :
    List.Pairwise (fun a b => strLe a b = true) (sortStrings l) := by
  induction l with
  | nil => simp [sortStrings]
  | cons a t ih => exact pairwise_insertSorted a (sortStrings t) ih

/-- Model of `getUniqueWorkoutDates` (`src/utils/stats.ts`, lines 3-21): the
JavaScript `Set` collects, in insertion order, the date portions of all
exercise sessions and then the start-date portions of completed Dwarf
workouts; the fold reproduces `Set.add`, and the result is sorted. -/
def getUniqueWorkoutDates (data : WorkoutData) : List String :=
  let exerciseDates := data.exercises.flatMap
    (fun e => e.sessions.map (fun s => datePart s.date))
  let dwarfDates := (data.workoutSessions.filter
      (fun ws => ws.isDwarfWorkout == some true && strTruthy ws.endTime)).map
    (fun ws => datePart ws.startTime)
  let uniq := (exerciseDates ++ dwarfDates).foldl
    (fun acc d => if d ∈ acc then acc else acc ++ [d]) []
  sortStrings uniq

/-- Model of `getLastWorkoutDate` (`src/utils/stats.ts`, lines 104-108):
`null` on an empty list, otherwise the final element. -/
def getLastWorkoutDate (data : WorkoutData) : Option String :=
  let dates := getUniqueWorkoutDates data
  if dates.length = 0 then none
  else dates.getLast?

/-- Membership after the `Set`-reproducing fold. -/
theorem mem_foldl_dedup (l : List String) :
    ∀ (acc : List String) (x : String),
      (x ∈ l.foldl (fun acc d => if d ∈ acc then acc else acc ++ [d]) acc ↔
        x ∈ acc ∨ x ∈ l) := by
  induction l with
  | nil => intro acc x; simp
  | cons d t ih =>
    intro acc x
    simp only [List.foldl_cons]
    rw [ih]
    by_cases hd : d ∈ acc
    · rw [if_pos hd]
      constructor
      · rintro (h | h)
        · exact Or.inl h
        · exact Or.inr (List.mem_cons_of_mem d h)
      · rintro (h | h)
        · exact Or.inl h
        · rcases List.mem_cons.mp h with rfl | h2
          · exact Or.inl hd
          · exact Or.inr h2
    · rw [if_neg hd]
      simp only [List.mem_append, List.mem_singleton, List.mem_cons]
      tauto

/-- The `Set`-reproducing fold never introduces duplicates. -/
theorem nodup_foldl_dedup (l : List String) :
    ∀ (acc : List String), acc.Nodup →
      (l.foldl (fun acc d => if d ∈ acc then acc else acc ++ [d]) acc).Nodup := by
  induction l with
  | nil => intro acc hacc; exact hacc
  | cons d t ih =>
    intro acc hacc
    simp only [List.foldl_cons]
    by_cases hd : d ∈ acc
    · rw [if_pos hd]
      exact ih acc hacc
    · rw [if_neg hd]
      refine ih (acc ++ [d]) ?_
      rw [List.nodup_append]
      exact ⟨hacc, List.nodup_singleton d, List.disjoint_singleton.mpr hd⟩

/-- Last element of a list. -/
theorem mem_of_getLast?_eq (l : List String) :
    ∀ x, l.getLast? = some x → x ∈ l := by
  induction l with
  | nil => intro x hx; simp at hx
  | cons a t ih =>
    intro x hx
    cases t with
    | nil =>
      rw [List.getLast?_singleton] at hx
      simp [Option.some_inj.mp hx]
    | cons b t2 =>
      rw [List.getLast?_cons_cons] at hx
      exact List.mem_cons_of_mem a (ih x hx)

/-- A nonempty list has a last element. -/
theorem getLast?_eq_some_of_ne_nil (l : List String) :
    l ≠ [] → ∃ x, l.getLast? = some x := by
  induction l with
  | nil => intro h; exact absurd rfl h
  | cons a t ih =>
    intro _
    cases t with
    | nil => exact ⟨a, List.getLast?_singleton a⟩
    | cons b t2 =>
      obtain ⟨x, hx⟩ := ih (by simp)
      exact ⟨x, by rw [List.getLast?_cons_cons]; exact hx⟩

/-- In a `strLe`-sorted list every element is below the last one. -/
theorem pairwise_le_getLast (l : List String) :
    List.Pairwise (fun a b => strLe a b = true) l →
    ∀ x, l.getLast? = some x → ∀ d ∈ l, strLe d x = true := by
  induction l with
  | nil => intro _ x hx; simp at hx
  | cons a t ih =>
    intro h x hx d hd
    obtain ⟨ha, ht⟩ := List.pairwise_cons.mp h
    cases t with
    | nil =>
      rw [List.getLast?_singleton] at hx
      rcases List.mem_singleton.mp hd with rfl
      rw [← Option.some_inj.mp hx]
      exact strLe_refl d
    | cons b t2 =>
      rw [List.getLast?_cons_cons] at hx
      rcases List.mem_cons.mp hd with rfl | hd2
      · exact ha x (mem_of_getLast?_eq (b :: t2) x hx)
      · exact ih ht x hx d hd2

/-- C5: `getUniqueWorkoutDates` is sorted ascending under the JavaScript
string order and duplicate-free, and it holds exactly the date portions of
all exercise sessions together with the start-date portions of completed
Dwarf workout sessions; `getLastWorkoutDate` is `none` exactly on the empty
list and otherwise its maximum.  The hypothesis says every present `endTime`
is a nonempty string, per the data model. -/
theorem C5_uniqueWorkoutDates_sorted_union (data : WorkoutData)
    (hwf : ∀ ws ∈ data.workoutSessions, ws.endTime ≠ some "") :
    List.Pairwise (fun a b => strLe a b = true) (getUniqueWorkoutDates data) ∧
    (getUniqueWorkoutDates data).Nodup ∧
    (∀ d, d ∈ getUniqueWorkoutDates data ↔
      ((∃ e ∈ data.exercises, ∃ s ∈ e.sessions, datePart s.date = d) ∨
       (∃ ws ∈ data.workoutSessions, ws.isDwarfWorkout = some true ∧
          ws.endTime ≠ none ∧ datePart ws.startTime = d))) ∧
    (getUniqueWorkoutDates data = [] → getLastWorkoutDate data = none) ∧
    (getUniqueWorkoutDates data ≠ [] →
      ∃ x, getLastWorkoutDate data = some x) ∧
    (∀ x, getLastWorkoutDate data = some x →
      x ∈ getUniqueWorkoutDates data ∧
      ∀ d ∈ getUniqueWorkoutDates data, strLe d x = true) := by
  have hsorted : List.Pairwise (fun a b => strLe a b = true)
      (getUniqueWorkoutDates data) := by
    simp only [getUniqueWorkoutDates]
    exact pairwise_sortStrings _
  have hperm : (getUniqueWorkoutDates data).Perm
      ((data.exercises.flatMap (fun e => e.sessions.map (fun s => datePart s.date)) ++
        (data.workoutSessions.filter
            (fun ws => ws.isDwarfWorkout == some true && strTruthy ws.endTime)).map
          (fun ws => datePart ws.startTime)).foldl
        (fun acc d => if d ∈ acc then acc else acc ++ [d]) []) := by
    simp only [getUniqueWorkoutDates]
    exact sortStrings_perm _
  refine ⟨hsorted, ?_, ?_, ?_, ?_, ?_⟩
  · exact hperm.nodup_iff.mpr (nodup_foldl_dedup _ [] List.nodup_nil)
  · intro d
    rw [hperm.mem_iff, mem_foldl_dedup]
    simp only [List.not_mem_nil, false_or, List.mem_append, List.mem_flatMap,
      List.mem_map, List.mem_filter]
    constructor
    · rintro (⟨e, he, s, hs, hd⟩ | ⟨ws, ⟨hws, hcond⟩, hd⟩)
      · exact Or.inl ⟨e, he, s, hs, hd⟩
      · rw [Bool.and_eq_true] at hcond
        obtain ⟨hdw, htr⟩ := hcond
        obtain ⟨t, het, _⟩ := (strTruthy_true_iff ws.endTime).mp htr
        refine Or.inr ⟨ws, hws, by simpa using hdw, by simp [het], hd⟩
    · rintro (⟨e, he, s, hs, hd⟩ | ⟨ws, hws, hdw, hend, hd⟩)
      · exact Or.inl ⟨e, he, s, hs, hd⟩
      · obtain ⟨t, het⟩ := Option.ne_none_iff_exists'.mp hend
        have htr : strTruthy ws.endTime = true := by
          refine (strTruthy_true_iff ws.endTime).mpr ⟨t, het, ?_⟩
          intro h0
          exact hwf ws hws (h0 ▸ het)
        refine Or.inr ⟨ws, ⟨hws, ?_⟩, hd⟩
        rw [Bool.and_eq_true]
        exact ⟨by simp [hdw], htr⟩
  · intro h0
    simp [getLastWorkoutDate, h0]
  · intro hne
    have hlen : ¬ (getUniqueWorkoutDates data).length = 0 := by
      simpa using hne
    obtain ⟨x, hx⟩ := getLast?_eq_some_of_ne_nil (getUniqueWorkoutDates data) hne
    refine ⟨x, ?_⟩
    simp only [getLastWorkoutDate]
    rw [if_neg hlen]
    exact hx
  · intro x hx
    have hne : ¬ (getUniqueWorkoutDates data).length = 0 := by
      intro h0
      simp [getLastWorkoutDate, h0] at hx
    have hlast : (getUniqueWorkoutDates data).getLast? = some x := by
      simpa [getLastWorkoutDate, hne] using hx
    exact ⟨mem_of_getLast?_eq _ x hlast,
      pairwise_le_getLast _ hsorted x hlast⟩

/-- Concrete snapshot for the C5 witness: two exercise-session dates out of
order, one completed Dwarf workout and one incomplete Dwarf workout. -/
def c5Data : WorkoutData :=
  { exercises :=
      [ { id := "a", name := "Bench", category := "Push",
          sessions :=
            [ { id := "s1", date := "2025-03-10T09:00:00.000Z", sets := [⟨5, 100⟩] },
              { id := "s2", date := "2025-03-04T09:00:00.000Z", sets := [⟨8, 80⟩] } ] } ],
    workoutSessions :=
      [ { id := "w1", startTime := "2025-03-06T09:00:00.000Z",
          endTime := some "2025-03-06T10:00:00.000Z",
          exerciseIds := [], isDwarfWorkout := some true },
        { id := "w2", startTime := "2025-03-07T09:00:00.000Z",
          endTime := none,
          exerciseIds := [], isDwarfWorkout := some true } ] }

/-- Witness for C5 at a concrete snapshot. -/
theorem C5_uniqueWorkoutDates_sorted_union_witness :
    (∀ ws ∈ c5Data.workoutSessions, ws.endTime ≠ some "") ∧
    (List.Pairwise (fun a b => strLe a b = true) (getUniqueWorkoutDates c5Data) ∧
    (getUniqueWorkoutDates c5Data).Nodup ∧
    (∀ d, d ∈ getUniqueWorkoutDates c5Data ↔
      ((∃ e ∈ c5Data.exercises, ∃ s ∈ e.sessions, datePart s.date = d) ∨
       (∃ ws ∈ c5Data.workoutSessions, ws.isDwarfWorkout = some true ∧
          ws.endTime ≠ none ∧ datePart ws.startTime = d))) ∧
    (getUniqueWorkoutDates c5Data = [] → getLastWorkoutDate c5Data = none) ∧
    (getUniqueWorkoutDates c5Data ≠ [] →
      ∃ x, getLastWorkoutDate c5Data = some x) ∧
    (∀ x, getLastWorkoutDate c5Data = some x →
      x ∈ getUniqueWorkoutDates c5Data ∧
      ∀ d ∈ getUniqueWorkoutDates c5Data, strLe d x = true)) :=
  ⟨by decide, C5_uniqueWorkoutDates_sorted_union c5Data (by decide)⟩

/-- First index satisfying a predicate, counting from zero; models the
JavaScript `indexOf` and `findIndex` (which return -1 on failure) as an
`Option`. -/
def idxOf? {α : Type} (p : α → Bool) : List α → Option Nat
  | [] => none
  | a :: l => if p a then some 0 else (idxOf? p l).map (fun n => n + 1)

/-- Model of `getMuscleGroupOrder` (`src/utils/stats.ts`, lines 197-227).
Primary method: the workout session matching the date whose `exerciseIds`
contain the exercise, its `exerciseIds` filtered to the given category, rank
the 1-based index therein.  Fallback (also when `indexOf` misses): 1-based
index among the exercises of the category with a nonempty session on the
date. -/
def getMuscleGroupOrder (exerciseId : String) (category : String)
    (sessionDate : String) (workoutSessions : List WorkoutSession)
    (allExercises : List Exercise) : Option Nat :=
  let dp := datePart sessionDate
  let primary : Option Nat :=
    match workoutSessions.find? (fun ws =>
        datePart ws.startTime == dp && ws.exerciseIds.contains exerciseId) with
    | some workoutSession =>
      let sameCategory := workoutSession.exerciseIds.filter (fun id =>
        match allExercises.find? (fun e => e.id == id) with
        | some ex => ex.category == category
        | none => false)
      match idxOf? (fun x => x == exerciseId) sameCategory with
      | some index => some (index + 1)
      | none => none
    | none => none
  match primary with
  | some r => some r
  | none =>
    let sameCategoryExercises := allExercises.filter (fun ex =>
      ex.category == category &&
        ex.sessions.any (fun s =>
          datePart s.date == dp && decide (0 < s.sets.length)))
    match idxOf? (fun ex => ex.id == exerciseId) sameCategoryExercises with
    | some index => some (index + 1)
    | none => none

/-- A predicate false on every element yields no index. -/
theorem idxOf?_eq_none {α : Type} (p : α → Bool) (l : List α)
    (h : ∀ x ∈ l, p x = false) : idxOf? p l = none := by
  induction l with
  | nil => rfl
  | cons a t ih =>
    simp only [idxOf?, h a (List.mem_cons_self a t), Bool.false_eq_true, if_false]
    rw [ih (fun x hx => h x (List.mem_cons_of_mem a hx))]
    rfl

/-- The property claim C6 asserts: with a workout session on date `d` whose
`exerciseIds` are `[A, B, C]`, exercises `A`, `B` of category Push and `C` of
category Pull heading the exercise list, the rank of `B` within Push is 2 and
the rank of `C` within Pull is 1; and the rank is `none` whenever no exercise
in the list carries the queried id. -/
def C6Post (d sid nA nB nC A B C : String) (sA sB sC : List ExerciseSession)
    (restEx : List Exercise) (restWs : List WorkoutSession)
    (endT : Option String) (dwarf : Option Bool) : Prop :=
  getMuscleGroupOrder B "Push" d
      ({ id := sid, startTime := d, endTime := endT, exerciseIds := [A, B, C],
         isDwarfWorkout := dwarf } :: restWs)
      ({ id := A, name := nA, category := "Push", sessions := sA } ::
        { id := B, name := nB, category := "Push", sessions := sB } ::
        { id := C, name := nC, category := "Pull", sessions := sC } :: restEx)
      = some 2 ∧
  getMuscleGroupOrder C "Pull" d
      ({ id := sid, startTime := d, endTime := endT, exerciseIds := [A, B, C],
         isDwarfWorkout := dwarf } :: restWs)
      ({ id := A, name := nA, category := "Push", sessions := sA } ::
        { id := B, name := nB, category := "Push", sessions := sB } ::
        { id := C, name := nC, category := "Pull", sessions := sC } :: restEx)
      = some 1 ∧
  (∀ (eid cat dt : String) (wss : List WorkoutSession) (exs : List Exercise),
    (∀ e ∈ exs, e.id ≠ eid) → getMuscleGroupOrder eid cat dt wss exs = none)

/-- C6: the 1-based rank within the session's `exerciseIds` filtered to the
category, per the primary method of `getMuscleGroupOrder`, is 2 for `B` in
Push and 1 for `C` in Pull; when the exercise cannot be located at all the
function returns `none`. -/
theorem C6_muscleGroupOrder_rank (d sid nA nB nC A B C : String)
    (sA sB sC : List ExerciseSession) (restEx : List Exercise)
    (restWs : List WorkoutSession) (endT : Option String) (dwarf : Option Bool)
    (hAB : A ≠ B) (hAC : A ≠ C) (hBC : B ≠ C) :
    C6Post d sid nA nB nC A B C sA sB sC restEx restWs endT dwarf := by
  have hABf : (A == B) = false := by simp [hAB]
  have hACf : (A == C) = false := by simp [hAC]
  have hBCf : (B == C) = false := by simp [hBC]
  have hBAf : (B == A) = false := by simp [Ne.symm hAB]
  have hCAf : (C == A) = false := by simp [Ne.symm hAC]
  have hCBf : (C == B) = false := by simp [Ne.symm hBC]
  have hPP : (("Push" : String) == "Push") = true := by decide
  have hLL : (("Pull" : String) == "Pull") = true := by decide
  have hLP : (("Pull" : String) == "Push") = false := by decide
  have hPL : (("Push" : String) == "Pull") = false := by decide
  refine ⟨?_, ?_, ?_⟩
  · simp [getMuscleGroupOrder, List.find?, List.contains, List.elem, List.filter,
      idxOf?, hABf, hACf, hBCf, hBAf, hCAf, hCBf, hPP, hLP]
  · simp [getMuscleGroupOrder, List.find?, List.contains, List.elem, List.filter,
      idxOf?, hABf, hACf, hBCf, hBAf, hCAf, hCBf, hLL, hPL]
  · intro eid cat dt wss exs hno
    simp only [getMuscleGroupOrder]
    have hfb : idxOf? (fun ex => ex.id == eid)
        (exs.filter (fun ex =>
          ex.category == cat &&
            ex.sessions.any (fun s =>
              datePart s.date == datePart dt && decide (0 < s.sets.length)))) = none := by
      apply idxOf?_eq_none
      intro ex hex
      have hmem := (List.mem_filter.mp hex).1
      simp [hno ex hmem]
    cases hfind : wss.find? (fun ws =>
        datePart ws.startTime == datePart dt && ws.exerciseIds.contains eid) with
    | none =>
      simp only [hfb]
    | some ws =>
      have hsc : idxOf? (fun x => x == eid)
          (ws.exerciseIds.filter (fun id =>
            match exs.find? (fun e => e.id == id) with
            | some ex => ex.category == cat
            | none => false)) = none := by
        apply idxOf?_eq_none
        intro x hx
        by_contra hbx
        have hxe : x = eid := by
          have : (x == eid) = true := by
            cases hb : (x == eid) with
            | true => rfl
            | false => exact absurd hb hbx
          simpa using this
        subst hxe
        have hpf := (List.mem_filter.mp hx).2
        cases hfind2 : exs.find? (fun e => e.id == x) with
        | none => rw [hfind2] at hpf; simp at hpf
        | some ex =>
          have hmem := List.mem_of_find?_eq_some hfind2
          have hid := List.find?_some hfind2
          exact hno ex hmem (by simpa using hid)
      simp only [hsc, hfb]

/-- Witness for C6 at concrete ids, categories and date. -/
theorem C6_muscleGroupOrder_rank_witness :
    (("a" : String) ≠ "b" ∧ ("a" : String) ≠ "c" ∧ ("b" : String) ≠ "c") ∧
    C6Post "2025-03-10T09:00:00.000Z" "w" "Bench" "Press" "Row" "a" "b" "c"
      [] [] [] [] [] none none :=
  ⟨⟨by decide, by decide, by decide⟩,
    C6_muscleGroupOrder_rank "2025-03-10T09:00:00.000Z" "w" "Bench" "Press" "Row"
      "a" "b" "c" [] [] [] [] [] none none (by decide) (by decide) (by decide)⟩

/-- Digits of a decimal numeral to a natural number. -/
def digitsToNat (cs : List Char) : Nat :=
  cs.foldl (fun acc c => acc * 10 + (c.toNat - 48)) 0

/-- Split a character list on a separator character. -/
def splitOnChar (sep : Char) : List Char → List (List Char)
  | [] => [[]]
  | c :: cs =>
    if c == sep then [] :: splitOnChar sep cs
    else
      match splitOnChar sep cs with
      | [] => [[c]]
      | r :: rs => (c :: r) :: rs

/-- Day number (days since 1970-01-01) of a Gregorian civil date, by the
standard days-from-civil conversion; all divisions act on nonnegative
operands. -/
def daysFromCivil (y m d : Int) : Int :=
  let yAdj := if m ≤ 2 then y - 1 else y
  let era := (if 0 ≤ yAdj then yAdj else yAdj - 399) / 400
  let yoe := yAdj - era * 400
  let mp := (m + 9) % 12
  let doy := (153 * mp + 2) / 5 + d - 1
  let doe := yoe * 365 + yoe / 4 - yoe / 100 + doy
  era * 146097 + doe - 719468

/-- Day number of a date string of shape YYYY-MM-DD; models
`new Date(dateStr)` for the date-only strings produced by
`getUniqueWorkoutDates` (UTC midnight, with local time equal to UTC).
Malformed strings map to day 0. -/
def parseDate (s : String) : Int :=
  match splitOnChar '-' s.data with
  | [y, m, d] => daysFromCivil (digitsToNat y) (digitsToNat m) (digitsToNat d)
  | _ => 0

/-- Model of `getWeekStart` (`src/utils/stats.ts`, lines 53-61) on day
numbers: truncating to midnight is a no-op on day numbers, and the date is
moved back to its week's Monday; `getDay()` of day number `n` is
`(n + 4) % 7` because 1970-01-01 was a Thursday. -/
def getWeekStart (d : Int) : Int :=
  let day := (d + 4) % 7
  let diff := if day = 0 then -6 else 1 - day
  d + diff

/-- Model of `getWeekKey` (`src/utils/stats.ts`, lines 63-67).  The source
renders the week's Monday as its ISO date string and compares those strings;
the rendering is injective on day numbers, so the key is represented by the
Monday's day number itself. -/
def getWeekKey (d : Int) : Int :=
  getWeekStart d

/-- The backward walk of `getCurrentStreak`: `i` is the loop counter, `fuel`
the remaining iterations (52 at the top), `streak` the accumulator.  A
missing week at `i = 0` is skipped; a missing week later stops the walk. -/
def streakGo (weeks : List Int) (checkDate : Int) (i : Nat) (fuel : Nat)
    (streak : Nat) : Nat :=
  match fuel with
  | 0 => streak
  | Nat.succ fuel2 =>
    if getWeekKey checkDate ∈ weeks then
      streakGo weeks (checkDate - 7) (i + 1) fuel2 (streak + 1)
    else if i = 0 then streakGo weeks (checkDate - 7) (i + 1) fuel2 streak
    else streak

/-- The week keys of a snapshot's workout dates (the `weeksWithWorkouts` set
of the source; only membership in it is ever used). -/
def workoutWeekKeys (data : WorkoutData) : List Int :=
  (getUniqueWorkoutDates data).map (fun s => getWeekKey (parseDate s))

/-- Model of `getCurrentStreak` (`src/utils/stats.ts`, lines 69-102); `today`
is the day number of `new Date()`. -/
def getCurrentStreak (data : WorkoutData) (today : Int) : Nat :=
  let dates := getUniqueWorkoutDates data
  if dates.length = 0 then 0
  else streakGo (workoutWeekKeys data) today 0 52 0

/-- Stepping one week back shifts the week key by exactly seven days. -/
theorem getWeekKey_sub_seven (t : Int) : getWeekKey (t - 7) = getWeekKey t - 7 := by
  simp only [getWeekKey, getWeekStart]
  have h : (t - 7 + 4) % 7 = (t + 4) % 7 := by omega
  rw [h]
  split_ifs with h0
  · omega
  · omega

/-- A hit week increments the streak and continues. -/
theorem streakGo_hit (w : List Int) (c : Int) (i n s : Nat)
    (h : getWeekKey c ∈ w) :
    streakGo w c i (n + 1) s = streakGo w (c - 7) (i + 1) n (s + 1) := by
  simp [streakGo, h]

/-- A missing current week (iteration 0) is skipped without increment. -/
theorem streakGo_skip (w : List Int) (c : Int) (n s : Nat)
    (h : getWeekKey c ∉ w) :
    streakGo w c 0 (n + 1) s = streakGo w (c - 7) 1 n s := by
  simp [streakGo, h]

/-- A missing later week stops the walk. -/
theorem streakGo_stop (w : List Int) (c : Int) (i n s : Nat)
    (h : getWeekKey c ∉ w) (hi : i ≠ 0) :
    streakGo w c i (n + 1) s = s := by
  simp [streakGo, h, hi]

/-- The walk adds at most `fuel` to the accumulator. -/
theorem streakGo_le (n : Nat) :
    ∀ (w : List Int) (c : Int) (i s : Nat), streakGo w c i n s ≤ s + n := by
  induction n with
  | zero => intro w c i s; simp [streakGo]
  | succ n ih =>
    intro w c i s
    simp only [streakGo]
    split_ifs with h1 h2
    · exact le_trans (ih w (c - 7) (i + 1) (s + 1)) (by omega)
    · exact le_trans (ih w (c - 7) (i + 1) s) (by omega)
    · omega

/-- C4: the streak walk visits at most 52 weeks; when the workout week keys
are exactly the current week and the two weeks before it, the streak is 3;
when they are exactly the weeks one and three back (current week and week
two back absent), the walk skips the current week, counts week one, and
stops at week two, giving 1. -/
theorem C4_currentStreak_weeks (d1 d2 d3 : WorkoutData) (today : Int)
    (h1 : ∀ w : Int, w ∈ workoutWeekKeys d1 ↔
      w ∈ [getWeekKey today, getWeekKey today - 7, getWeekKey today - 14])
    (h2 : ∀ w : Int, w ∈ workoutWeekKeys d2 ↔
      w ∈ [getWeekKey today - 7, getWeekKey today - 21]) :
    getCurrentStreak d1 today = 3 ∧ getCurrentStreak d2 today = 1 ∧
    getCurrentStreak d3 today ≤ 52 := by
  have m0 : getWeekKey today ∈ workoutWeekKeys d1 := (h1 _).mpr (by simp)
  have m1 : getWeekKey (today - 7) ∈ workoutWeekKeys d1 := by
    rw [getWeekKey_sub_seven]
    exact (h1 _).mpr (by simp)
  have m2 : getWeekKey (today - 7 - 7) ∈ workoutWeekKeys d1 := by
    rw [getWeekKey_sub_seven, getWeekKey_sub_seven]
    have he : getWeekKey today - 7 - 7 = getWeekKey today - 14 := by ring
    rw [he]
    exact (h1 _).mpr (by simp)
  have m3 : getWeekKey (today - 7 - 7 - 7) ∉ workoutWeekKeys d1 := by
    rw [getWeekKey_sub_seven, getWeekKey_sub_seven, getWeekKey_sub_seven]
    intro hmem
    have hh := (h1 _).mp hmem
    simp at hh
    omega
  have hne1 : ¬ (getUniqueWorkoutDates d1).length = 0 := by
    intro h0
    have hempty : workoutWeekKeys d1 = [] := by
      simp [workoutWeekKeys, List.length_eq_zero.mp h0]
    rw [hempty] at m0
    simp at m0
  have n0 : getWeekKey today ∉ workoutWeekKeys d2 := by
    intro hmem
    have hh := (h2 _).mp hmem
    simp at hh
    omega
  have p1 : getWeekKey (today - 7) ∈ workoutWeekKeys d2 := by
    rw [getWeekKey_sub_seven]
    exact (h2 _).mpr (by simp)
  have n2 : getWeekKey (today - 7 - 7) ∉ workoutWeekKeys d2 := by
    rw [getWeekKey_sub_seven, getWeekKey_sub_seven]
    intro hmem
    have hh := (h2 _).mp hmem
    simp at hh
    omega
  have hne2 : ¬ (getUniqueWorkoutDates d2).length = 0 := by
    intro h0
    have hempty : workoutWeekKeys d2 = [] := by
      simp [workoutWeekKeys, List.length_eq_zero.mp h0]
    rw [hempty] at p1
    simp at p1
  refine ⟨?_, ?_, ?_⟩
  · simp only [getCurrentStreak]
    rw [if_neg hne1]
    have e1 : streakGo (workoutWeekKeys d1) today 0 52 0
        = streakGo (workoutWeekKeys d1) (today - 7) 1 51 1 :=
      streakGo_hit _ _ 0 51 0 m0
    have e2 : streakGo (workoutWeekKeys d1) (today - 7) 1 51 1
        = streakGo (workoutWeekKeys d1) (today - 7 - 7) 2 50 2 :=
      streakGo_hit _ _ 1 50 1 m1
    have e3 : streakGo (workoutWeekKeys d1) (today - 7 - 7) 2 50 2
        = streakGo (workoutWeekKeys d1) (today - 7 - 7 - 7) 3 49 3 :=
      streakGo_hit _ _ 2 49 2 m2
    have e4 : streakGo (workoutWeekKeys d1) (today - 7 - 7 - 7) 3 49 3 = 3 :=
      streakGo_stop _ _ 3 48 3 m3 (by decide)
    rw [e1, e2, e3, e4]
  · simp only [getCurrentStreak]
    rw [if_neg hne2]
    have e1 : streakGo (workoutWeekKeys d2) today 0 52 0
        = streakGo (workoutWeekKeys d2) (today - 7) 1 51 0 :=
      streakGo_skip _ _ 51 0 n0
    have e2 : streakGo (workoutWeekKeys d2) (today - 7) 1 51 0
        = streakGo (workoutWeekKeys d2) (today - 7 - 7) 2 50 1 :=
      streakGo_hit _ _ 1 50 0 p1
    have e3 : streakGo (workoutWeekKeys d2) (today - 7 - 7) 2 50 1 = 1 :=
      streakGo_stop _ _ 2 49 1 n2 (by decide)
    rw [e1, e2, e3]
  · simp only [getCurrentStreak]
    split_ifs with h0
    · omega
    · simpa using streakGo_le 52 (workoutWeekKeys d3) today 0 0

/-- Concrete snapshot for the C4 witness, scenario one: workout dates in the
current week (of 2026-10-07) and the two weeks before it. -/
def c4Data1 : WorkoutData :=
  { exercises :=
      [ { id := "a", name := "Bench", category := "Push",
          sessions :=
            [ { id := "s1", date := "2026-10-06T09:00:00.000Z", sets := [⟨5, 100⟩] },
              { id := "s2", date := "2026-09-29T09:00:00.000Z", sets := [⟨5, 100⟩] },
              { id := "s3", date := "2026-09-22T09:00:00.000Z", sets := [⟨5, 100⟩] } ] } ],
    workoutSessions := [] }

/-- Concrete snapshot for the C4 witness, scenario two: workout dates only in
the weeks one and three before the week of 2026-10-07. -/
def c4Data2 : WorkoutData :=
  { exercises :=
      [ { id := "a", name := "Bench", category := "Push",
          sessions :=
            [ { id := "s1", date := "2026-09-29T09:00:00.000Z", sets := [⟨5, 100⟩] },
              { id := "s2", date := "2026-09-15T09:00:00.000Z", sets := [⟨5, 100⟩] } ] } ],
    workoutSessions := [] }

/-- Witness for C4 at the concrete snapshots, with today 2026-10-07. -/
theorem C4_currentStreak_weeks_witness :
    ((∀ w : Int, w ∈ workoutWeekKeys c4Data1 ↔
        w ∈ [getWeekKey (parseDate "2026-10-07"),
          getWeekKey (parseDate "2026-10-07") - 7,
          getWeekKey (parseDate "2026-10-07") - 14]) ∧
      (∀ w : Int, w ∈ workoutWeekKeys c4Data2 ↔
        w ∈ [getWeekKey (parseDate "2026-10-07") - 7,
          getWeekKey (parseDate "2026-10-07") - 21])) ∧
    (getCurrentStreak c4Data1 (parseDate "2026-10-07") = 3 ∧
      getCurrentStreak c4Data2 (parseDate "2026-10-07") = 1 ∧
      getCurrentStreak c4Data1 (parseDate "2026-10-07") ≤ 52) := by
  have hw1 : ∀ w : Int, w ∈ workoutWeekKeys c4Data1 ↔
      w ∈ [getWeekKey (parseDate "2026-10-07"),
        getWeekKey (parseDate "2026-10-07") - 7,
        getWeekKey (parseDate "2026-10-07") - 14] := by
    have e1 : workoutWeekKeys c4Data1 = [20717, 20724, 20731] := by decide
    have e2 : [getWeekKey (parseDate "2026-10-07"),
        getWeekKey (parseDate "2026-10-07") - 7,
        getWeekKey (parseDate "2026-10-07") - 14] = [(20731 : Int), 20724, 20717] := by
      decide
    intro w
    rw [e1, e2]
    simp only [List.mem_cons, List.not_mem_nil, or_false]
    tauto
  have hw2 : ∀ w : Int, w ∈ workoutWeekKeys c4Data2 ↔
      w ∈ [getWeekKey (parseDate "2026-10-07") - 7,
        getWeekKey (parseDate "2026-10-07") - 21] := by
    have e1 : workoutWeekKeys c4Data2 = [20710, 20724] := by decide
    have e2 : [getWeekKey (parseDate "2026-10-07") - 7,
        getWeekKey (parseDate "2026-10-07") - 21] = [(20724 : Int), 20710] := by
      decide
    intro w
    rw [e1, e2]
    simp only [List.mem_cons, List.not_mem_nil, or_false]
    tauto
  exact ⟨⟨hw1, hw2⟩,
    C4_currentStreak_weeks c4Data1 c4Data2 c4Data1 (parseDate "2026-10-07") hw1 hw2⟩

/-- JSON values: the possible results of `JSON.parse`.  Numbers are modelled
as `Int`, like every other number in this development. -/
inductive Json : Type where
  | null : Json
  | bool : Bool → Json
  | num : Int → Json
  | str : String → Json
  | arr : List Json → Json
  | obj : List (String × Json) → Json

/-- First binding of a key in an object's field list. -/
def lookupField : List (String × Json) → String → Option Json
  | [], _ => none
  | (k, v) :: rest, key => if k == key then some v else lookupField rest key

/-- JavaScript property access on a parsed value: `undefined` (here `none`)
when the key is absent or the value is not an object. -/
def Json.getField : Json → String → Option Json
  | Json.obj fields, key => lookupField fields key
  | _, _ => none

/-- How `JSON.stringify` represents a `Set` record. -/
def encodeSet (s : Set) : Json :=
  Json.obj [("reps", Json.num s.reps), ("weight", Json.num s.weight)]

/-- How `JSON.stringify` represents an `ExerciseSession` record. -/
def encodeExerciseSession (s : ExerciseSession) : Json :=
  Json.obj [("id", Json.str s.id), ("date", Json.str s.date),
    ("sets", Json.arr (s.sets.map encodeSet))]

/-- How `JSON.stringify` represents an `Exercise` record. -/
def encodeExercise (e : Exercise) : Json :=
  Json.obj [("id", Json.str e.id), ("name", Json.str e.name),
    ("category", Json.str e.category),
    ("sessions", Json.arr (e.sessions.map encodeExerciseSession))]

/-- How `JSON.stringify` represents a `WorkoutSession` record; fields holding
`undefined` are omitted from the output object. -/
def encodeWorkoutSession (w : WorkoutSession) : Json :=
  Json.obj ([("id", Json.str w.id), ("startTime", Json.str w.startTime)] ++
    (match w.endTime with
     | some t => [("endTime", Json.str t)]
     | none => []) ++
    [("exerciseIds", Json.arr (w.exerciseIds.map Json.str))] ++
    (match w.isDwarfWorkout with
     | some b => [("isDwarfWorkout", Json.bool b)]
     | none => []))

/-- How `JSON.stringify` represents the root `WorkoutData` record. -/
def encodeWorkoutData (data : WorkoutData) : Json :=
  Json.obj [("exercises", Json.arr (data.exercises.map encodeExercise)),
    ("workoutSessions", Json.arr (data.workoutSessions.map encodeWorkoutSession))]

/-- Model of `exportData` (`src/utils/storage.ts`, lines 28-42) at the JSON
value level: `JSON.stringify(data, null, 2)` determines this value; the
pretty-printed text rendering and the clipboard-or-download delivery are
outside the model. -/
def exportData (data : WorkoutData) : Json :=
  encodeWorkoutData data

/-- JavaScript truthiness of a parsed JSON value (the `data &&` test of the
source). -/
def jsTruthy : Json → Bool
  | Json.null => false
  | Json.bool b => b
  | Json.num n => n != 0
  | Json.str s => s != ""
  | Json.arr _ => true
  | Json.obj _ => true

/-- Model of `importData` (`src/utils/storage.ts`, lines 44-55).  The
argument is the outcome of `JSON.parse` on the input text: `none` when the
parse throws, otherwise the parsed value.  The source checks
`data && Array.isArray(data.exercises)` and returns the parsed value itself,
unvalidated beyond that. -/
def importData (parsed : Option Json) : Option Json :=
  match parsed with
  | none => none
  | some j =>
    if jsTruthy j then
      match j.getField "exercises" with
      | some (Json.arr _) => some j
      | _ => none
    else none

/-- Decoding of a homogeneous JSON array. -/
def decodeList {α : Type} (dec : Json → Option α) : List Json → Option (List α)
  | [] => some []
  | j :: js =>
    match dec j, decodeList dec js with
    | some a, some as => some (a :: as)
    | _, _ => none

/-- Reading a `Set` record back from its JSON representation, per the
persisted snapshot shape (spec section 6). -/
def decodeSet (j : Json) : Option Set :=
  match j.getField "reps", j.getField "weight" with
  | some (Json.num r), some (Json.num w) => some { reps := r, weight := w }
  | _, _ => none

/-- Reading a string. -/
def decodeStr : Json → Option String
  | Json.str s => some s
  | _ => none

/-- Reading an `ExerciseSession` record back from its JSON representation. -/
def decodeExerciseSession (j : Json) : Option ExerciseSession :=
  match j.getField "id", j.getField "date", j.getField "sets" with
  | some (Json.str i), some (Json.str d), some (Json.arr sets) =>
    match decodeList decodeSet sets with
    | some ss => some { id := i, date := d, sets := ss }
    | none => none
  | _, _, _ => none

/-- Reading an `Exercise` record back from its JSON representation. -/
def decodeExercise (j : Json) : Option Exercise :=
  match j.getField "id", j.getField "name", j.getField "category",
      j.getField "sessions" with
  | some (Json.str i), some (Json.str n), some (Json.str c), some (Json.arr ss) =>
    match decodeList decodeExerciseSession ss with
    | some sessions => some { id := i, name := n, category := c, sessions := sessions }
    | none => none
  | _, _, _, _ => none

/-- Reading a `WorkoutSession` record back from its JSON representation;
optional fields read back as `none` when absent. -/
def decodeWorkoutSession (j : Json) : Option WorkoutSession :=
  match j.getField "id", j.getField "startTime", j.getField "exerciseIds" with
  | some (Json.str i), some (Json.str st), some (Json.arr ids) =>
    match decodeList decodeStr ids with
    | some exIds =>
      some { id := i, startTime := st,
             endTime :=
               match j.getField "endTime" with
               | some (Json.str t) => some t
               | _ => none,
             exerciseIds := exIds,
             isDwarfWorkout :=
               match j.getField "isDwarfWorkout" with
               | some (Json.bool b) => some b
               | _ => none }
    | none => none
  | _, _, _ => none

/-- Reading a `WorkoutData` record back from its JSON representation. -/
def decodeWorkoutData (j : Json) : Option WorkoutData :=
  match j.getField "exercises", j.getField "workoutSessions" with
  | some (Json.arr exs), some (Json.arr wss) =>
    match decodeList decodeExercise exs, decodeList decodeWorkoutSession wss with
    | some exercises, some workoutSessions =>
      some { exercises := exercises, workoutSessions := workoutSessions }
    | _, _ => none
  | _, _ => none

/-- A pointwise-invertible element decoder lifts to arrays. -/
theorem decodeList_encode {α : Type} (dec : Json → Option α) (enc : α → Json)
    (h : ∀ x, dec (enc x) = some x) (l : List α) :
    decodeList dec (l.map enc) = some l := by
  induction l with
  | nil => rfl
  | cons a t ih => simp [decodeList, h a, ih]

/-- Round trip for sets. -/
theorem decodeSet_encodeSet (s : Set) : decodeSet (encodeSet s) = some s := rfl

/-- Round trip for exercise sessions. -/
theorem decodeExerciseSession_encode (s : ExerciseSession) :
    decodeExerciseSession (encodeExerciseSession s) = some s := by
  have h : decodeExerciseSession (encodeExerciseSession s)
      = (match decodeList decodeSet (s.sets.map encodeSet) with
         | some ss => some { id := s.id, date := s.date, sets := ss }
         | none => none) := rfl
  rw [h, decodeList_encode decodeSet encodeSet decodeSet_encodeSet]

/-- Round trip for exercises. -/
theorem decodeExercise_encode (e : Exercise) :
    decodeExercise (encodeExercise e) = some e := by
  have h : decodeExercise (encodeExercise e)
      = (match decodeList decodeExerciseSession
            (e.sessions.map encodeExerciseSession) with
         | some sessions =>
            some { id := e.id, name := e.name, category := e.category,
                   sessions := sessions }
         | none => none) := rfl
  rw [h, decodeList_encode decodeExerciseSession encodeExerciseSession
    decodeExerciseSession_encode]

/-- Round trip for workout sessions, by cases on the optional fields. -/
theorem decodeWorkoutSession_encode (w : WorkoutSession) :
    decodeWorkoutSession (encodeWorkoutSession w) = some w := by
  obtain ⟨i, st, et, ids, dw⟩ := w
  have hids := decodeList_encode decodeStr Json.str (fun x => rfl) ids
  cases et with
  | none =>
    cases dw with
    | none =>
      rw [show decodeWorkoutSession (encodeWorkoutSession ⟨i, st, none, ids, none⟩)
          = (match decodeList decodeStr (ids.map Json.str) with
             | some exIds => some ⟨i, st, none, exIds, none⟩
             | none => none) from rfl, hids]
    | some b =>
      rw [show decodeWorkoutSession (encodeWorkoutSession ⟨i, st, none, ids, some b⟩)
          = (match decodeList decodeStr (ids.map Json.str) with
             | some exIds => some ⟨i, st, none, exIds, some b⟩
             | none => none) from rfl, hids]
  | some t =>
    cases dw with
    | none =>
      rw [show decodeWorkoutSession (encodeWorkoutSession ⟨i, st, some t, ids, none⟩)
          = (match decodeList decodeStr (ids.map Json.str) with
             | some exIds => some ⟨i, st, some t, exIds, none⟩
             | none => none) from rfl, hids]
    | some b =>
      rw [show decodeWorkoutSession (encodeWorkoutSession ⟨i, st, some t, ids, some b⟩)
          = (match decodeList decodeStr (ids.map Json.str) with
             | some exIds => some ⟨i, st, some t, exIds, some b⟩
             | none => none) from rfl, hids]

/-- Round trip for the root record. -/
theorem decodeWorkoutData_encode (data : WorkoutData) :
    decodeWorkoutData (encodeWorkoutData data) = some data := by
  have h : decodeWorkoutData (encodeWorkoutData data)
      = (match decodeList decodeExercise (data.exercises.map encodeExercise),
            decodeList decodeWorkoutSession
              (data.workoutSessions.map encodeWorkoutSession) with
         | some exercises, some workoutSessions =>
            some { exercises := exercises, workoutSessions := workoutSessions }
         | _, _ => none) := rfl
  rw [h, decodeList_encode decodeExercise encodeExercise decodeExercise_encode,
    decodeList_encode decodeWorkoutSession encodeWorkoutSession
      decodeWorkoutSession_encode]

/-- C7: importing the export of any snapshot succeeds and returns the
exported value unchanged, and reading that value back per the persisted
snapshot shape reconstructs the snapshot, exercises and workout sessions in
their original order; importing unparseable text yields `none`; importing
never alters an accepted value; and any parse result without an array-valued
`exercises` field is rejected. -/
theorem C7_export_import_roundtrip (data : WorkoutData) :
    importData (some (exportData data)) = some (exportData data) ∧
    decodeWorkoutData (exportData data) = some data ∧
    importData none = none ∧
    (∀ j : Json, importData (some j) = none ∨ importData (some j) = some j) ∧
    (∀ j : Json,
      (∀ a : List Json, Json.getField j "exercises" ≠ some (Json.arr a)) →
      importData (some j) = none) := by
  refine ⟨rfl, decodeWorkoutData_encode data, rfl, ?_, ?_⟩
  · intro j
    simp only [importData]
    split_ifs with ht
    · cases hf : j.getField "exercises" with
      | none => left; rfl
      | some v => cases v <;> first | (right ; rfl) | (left ; rfl)
    · left; rfl
  · intro j hno
    simp only [importData]
    split_ifs with ht
    · cases hf : j.getField "exercises" with
      | none => rfl
      | some v => cases v <;> first | (exact absurd hf (hno _)) | rfl
    · rfl

/-- Witness for C7 at a concrete snapshot, together with the rejection
conjunct discharged at a concrete non-object parse result. -/
theorem C7_export_import_roundtrip_witness :
    (importData (some (exportData c1Data)) = some (exportData c1Data) ∧
      decodeWorkoutData (exportData c1Data) = some c1Data) ∧
    ((∀ a : List Json, Json.getField (Json.num 5) "exercises" ≠ some (Json.arr a)) ∧
      importData (some (Json.num 5)) = none) :=
  ⟨⟨(C7_export_import_roundtrip c1Data).1, (C7_export_import_roundtrip c1Data).2.1⟩,
    ⟨(fun _a h => nomatch h),
      (C7_export_import_roundtrip c1Data).2.2.2.2 (Json.num 5) (fun _a h => nomatch h)⟩⟩

/-- C10: the shallow validation of `importData` accepts a parse result that
has an array-valued `exercises` field but no `workoutSessions` field at all,
returning it unchanged; that value has no `workoutSessions` property and
does not read back as a `WorkoutData`, so the derivation functions (defined
on `WorkoutData`) are not applicable to it. -/
theorem C10_import_not_model_establishing :
    importData (some (Json.obj [("exercises", Json.arr [])]))
        = some (Json.obj [("exercises", Json.arr [])]) ∧
    Json.getField (Json.obj [("exercises", Json.arr [])]) "workoutSessions" = none ∧
    decodeWorkoutData (Json.obj [("exercises", Json.arr [])]) = none :=
  ⟨rfl, rfl, rfl⟩

/-- Milliseconds within a day of an ISO time part HH:MM:SS.mmm with an
optional trailing Z. -/
def parseTimeMs (cs : List Char) : Int :=
  let cs2 := cs.takeWhile (fun c => c != 'Z')
  match splitOnChar ':' cs2 with
  | [hh, mm, rest] =>
    match splitOnChar '.' rest with
    | [ss, ms] =>
      (digitsToNat hh : Int) * 3600000 + (digitsToNat mm : Int) * 60000 +
        (digitsToNat ss : Int) * 1000 + (digitsToNat ms : Int)
    | [ss] =>
      (digitsToNat hh : Int) * 3600000 + (digitsToNat mm : Int) * 60000 +
        (digitsToNat ss : Int) * 1000
    | _ => 0
  | _ => 0

/-- Epoch milliseconds of an ISO timestamp string: models
`new Date(s).getTime()` for the `toISOString`-shaped strings the app stores
(local time equal to UTC). -/
def dateMs (s : String) : Int :=
  match splitOnChar 'T' s.data with
  | [d] => parseDate (String.mk d) * 86400000
  | [d, t] => parseDate (String.mk d) * 86400000 + parseTimeMs t
  | _ => 0

/-- Insertion step of the date-descending sort; ties keep the earlier
element first, as the (stable) JavaScript sort does. -/
def insertByDateDesc (x : ExerciseSession) :
    List ExerciseSession → List ExerciseSession
  | [] => [x]
  | y :: ys =>
    if dateMs y.date ≤ dateMs x.date then x :: y :: ys
    else y :: insertByDateDesc x ys

/-- Sort of sessions by date descending: the effect of the source's
`sort((a, b) => new Date(b.date).getTime() - new Date(a.date).getTime())`,
which is stable per the ECMAScript specification. -/
def sortByDateDesc : List ExerciseSession → List ExerciseSession
  | [] => []
  | x :: xs => insertByDateDesc x (sortByDateDesc xs)

/-- Model of `getExerciseLastSession` (`src/utils/stats.ts`, lines 163-168).
The source calls `exercise.sessions.sort(...)` and `Array.prototype.sort`
sorts its receiver in place, so the call is modelled with explicit state
passing: it returns the value together with the post-state of the exercise,
whose sessions are now the sorted array. -/
def getExerciseLastSession (exercise : Exercise) :
    Option ExerciseSession × Exercise :=
  if exercise.sessions.length = 0 then (none, exercise)
  else
    let sorted := sortByDateDesc exercise.sessions
    (sorted.head?, { exercise with sessions := sorted })

/-- Model of `getExercisePreviousSession` (`src/utils/stats.ts`, lines
171-177): `filter` copies the array before the in-place sort, so the
exercise itself is returned unchanged; `todayDateStr` is
`new Date().toISOString().split('T')[0]`. -/
def getExercisePreviousSession (exercise : Exercise) (todayDateStr : String) :
    Option ExerciseSession × Exercise :=
  let sorted := sortByDateDesc (exercise.sessions.filter
    (fun s => datePart s.date != todayDateStr))
  (sorted.head?, exercise)

/-- Model of `getExercisePreviousSessions` (`src/utils/stats.ts`, lines
180-186): as above, with `slice(0, count)` on the sorted copy. -/
def getExercisePreviousSessions (exercise : Exercise) (todayDateStr : String)
    (count : Nat) : List ExerciseSession × Exercise :=
  ((sortByDateDesc (exercise.sessions.filter
      (fun s => datePart s.date != todayDateStr))).take count, exercise)

/-- Inserting into the date-descending sort permutes consing. -/
theorem insertByDateDesc_perm (x : ExerciseSession) (l : List ExerciseSession) :
    (insertByDateDesc x l).Perm (x :: l) := by
  induction l with
  | nil => simp [insertByDateDesc]
  | cons a t ih =>
    simp only [insertByDateDesc]
    split_ifs
    · exact List.Perm.refl _
    · exact (ih.cons a).trans (List.Perm.swap x a t)

/-- The date-descending sort permutes its input. -/
theorem sortByDateDesc_perm (l : List ExerciseSession) :
    (sortByDateDesc l).Perm l := by
  induction l with
  | nil => exact List.Perm.nil
  | cons a t ih =>
    exact (insertByDateDesc_perm a (sortByDateDesc t)).trans (ih.cons a)

/-- Earlier session of the C8 failing input. -/
def c8SessionEarly : ExerciseSession :=
  { id := "s1", date := "2025-01-01T10:00:00.000Z", sets := [⟨5, 100⟩] }

/-- Later session of the C8 failing input. -/
def c8SessionLate : ExerciseSession :=
  { id := "s2", date := "2025-01-02T10:00:00.000Z", sets := [⟨5, 105⟩] }

/-- The C8 failing input: an exercise whose sessions are stored in ascending
date order. -/
def c8Exercise : Exercise :=
  { id := "a", name := "Bench", category := "Push",
    sessions := [c8SessionEarly, c8SessionLate] }

/-- Counterexample to C8 as stated: on an exercise whose sessions are in
ascending date order, the `getExerciseLastSession` call leaves the exercise
changed — its sessions have been reordered descending by the in-place
sort. -/
theorem C8_lastSession_mutates_counterexample :
    (getExerciseLastSession c8Exercise).2 ≠ c8Exercise ∧
    (getExerciseLastSession c8Exercise).2.sessions
        = [c8SessionLate, c8SessionEarly] ∧
    c8Exercise.sessions = [c8SessionEarly, c8SessionLate] :=
  ⟨by decide, by decide, by decide⟩

/-- C8 as amended: `getExercisePreviousSession` and
`getExercisePreviousSessions` leave the input exercise unchanged (they sort
a fresh filtered copy), while `getExerciseLastSession` sorts the exercise's
own sessions array in place: the scalar fields survive and the sessions are
a permutation of the originals, but their order may change. -/
theorem C8_derivations_frame (exercise : Exercise) (todayDateStr : String)
    (count : Nat) :
    (getExercisePreviousSession exercise todayDateStr).2 = exercise ∧
    (getExercisePreviousSessions exercise todayDateStr count).2 = exercise ∧
    (getExerciseLastSession exercise).2.id = exercise.id ∧
    (getExerciseLastSession exercise).2.name = exercise.name ∧
    (getExerciseLastSession exercise).2.category = exercise.category ∧
    (getExerciseLastSession exercise).2.sessions.Perm exercise.sessions := by
  refine ⟨rfl, rfl, ?_, ?_, ?_, ?_⟩
  · unfold getExerciseLastSession
    split_ifs <;> rfl
  · unfold getExerciseLastSession
    split_ifs <;> rfl
  · unfold getExerciseLastSession
    split_ifs <;> rfl
  · unfold getExerciseLastSession
    split_ifs with h
    · exact List.Perm.refl _
    · exact sortByDateDesc_perm exercise.sessions

end Reps
